import Mathlib

/-!
# Verification of the DSA key subsystem (ossl_pkey_dsa.c)

This file gives a shallow embedding of the DSA key object of the
repository's `ext/openssl/ossl_pkey_dsa.c` and settles the frozen claims
about it.  The C file's own logic (predicates `DSA_HAS_PRIVATE` /
`DSA_PRIVATE`, the constructor `ossl_dsa_initialize`, the accessors,
`ossl_dsa_export` / `ossl_dsa_to_der`, and the `ossl_dsa_sign` /
`ossl_dsa_verify` wrappers) is translated directly from the source.
The collaborators that the source delegates to and that are not part of
the repository sources available here (the DER/PEM codec, base64, the
generic key reader `ossl_pkey_read_generic`, the export helpers
`ossl_pkey_export_traditional` / `ossl_pkey_export_spki`, and the
`DSA_sign` / `DSA_verify` arithmetic of libcrypto) are modelled from the
specification; each such definition carries a doc comment starting with
`Modelled from the spec:`.

Bytes are modelled as natural numbers (real bytes are the values below
256; the codec functions never produce anything else on byte inputs, and
theorems that need the bound state it explicitly).
-/

deriving instance DecidableEq for Except

/-! ## Byte-string / big-endian integer conversions -/

/-- Big-endian interpretation of a byte string as a natural number
(the BigInt `BN_bin2bn` contract of the external codec). -/
def bytesToNat : List Nat → Nat
  | [] => 0
  | b :: bs => b * 256 ^ bs.length + bytesToNat bs

/-- Fuel-driven big-endian base-256 digit expansion (fuel first, so that
the definition is structurally recursive and computes by `rfl`). -/
def beBytesAux : Nat → Nat → List Nat
  | _, 0 => []
  | 0, _ + 1 => []
  | f + 1, n + 1 => beBytesAux f ((n + 1) / 256) ++ [(n + 1) % 256]

/-- Minimal big-endian base-256 digits of `n` (`BN_bn2bin`): empty for 0,
no leading zero bytes otherwise. -/
def natToBEBytes (n : Nat) : List Nat := beBytesAux n n

theorem bytesToNat_append (l1 l2 : List Nat) :
    bytesToNat (l1 ++ l2) = bytesToNat l1 * 256 ^ l2.length + bytesToNat l2 := by
  induction l1 with
  | nil => simp [bytesToNat]
  | cons b bs ih =>
      show bytesToNat (b :: (bs ++ l2)) = _
      simp only [bytesToNat]
      rw [ih, List.length_append, pow_add]
      ring

theorem bytesToNat_beBytesAux (f : Nat) : ∀ n, n ≤ f → bytesToNat (beBytesAux f n) = n := by
  induction f with
  | zero =>
      intro n hn
      interval_cases n
      simp [beBytesAux, bytesToNat]
  | succ f ih =>
      intro n hn
      match n with
      | 0 => simp [beBytesAux, bytesToNat]
      | m + 1 =>
          have hdiv : (m + 1) / 256 ≤ f := by
            have h1 : (m + 1) / 256 < m + 1 := Nat.div_lt_self (Nat.succ_pos m) (by decide)
            omega
          simp only [beBytesAux, bytesToNat_append, ih _ hdiv, bytesToNat,
            List.length_cons, List.length_nil, pow_zero, pow_one, mul_one]
          omega

theorem bytesToNat_natToBEBytes (n : Nat) : bytesToNat (natToBEBytes n) = n :=
  bytesToNat_beBytesAux n n le_rfl

theorem natToBEBytes_ne_nil {n : Nat} (h : n ≠ 0) : natToBEBytes n ≠ [] := by
  match n, h with
  | m + 1, _ =>
      show beBytesAux (m + 1) (m + 1) ≠ []
      simp [beBytesAux]

/-! ## DER primitives

Modelled from the spec: the Codec Layer's DER encoding.  A DER value is a
tag byte, a length (short form below 128, long form above), and the
contents.  `taggedEnc` builds one value; `readTagged` consumes one and
returns its contents and the remaining input. -/

/-- DER length encoding: short form for lengths below 128, long form
(`0x80 + count` followed by the big-endian count bytes) otherwise. -/
def encodeLen (n : Nat) : List Nat :=
  if n < 128 then [n] else (128 + (natToBEBytes n).length) :: natToBEBytes n

/-- Contents octets of a DER INTEGER for a non-negative value: minimal
big-endian digits, `[0]` for zero, and a leading zero byte when the top
bit would otherwise read as a sign bit. -/
def encAux (n : Nat) : List Nat :=
  match natToBEBytes n with
  | [] => [0]
  | b :: bs => if 128 ≤ b then 0 :: b :: bs else b :: bs

theorem bytesToNat_encAux (n : Nat) : bytesToNat (encAux n) = n := by
  unfold encAux
  have h := bytesToNat_natToBEBytes n
  cases hb : natToBEBytes n with
  | nil => simpa [hb, bytesToNat] using h
  | cons b bs =>
      rw [hb] at h
      by_cases hge : 128 ≤ b
      · simpa [hge, bytesToNat] using h
      · simpa [hge] using h

/-- A complete DER value: tag, encoded length of the contents, contents. -/
def taggedEnc (tag : Nat) (c : List Nat) : List Nat :=
  tag :: (encodeLen c.length ++ c)

/-- DER INTEGER (non-negative). -/
def encodeInt (n : Nat) : List Nat := taggedEnc 2 (encAux n)

/-- Read one byte. -/
def readByte : List Nat → Option (Nat × List Nat)
  | [] => none
  | b :: rest => some (b, rest)

/-- Parse a DER length (short or long form). -/
def readLen : List Nat → Option (Nat × List Nat)
  | [] => none
  | b :: rest =>
      if b < 128 then some (b, rest)
      else
        if b - 128 = 0 then none
        else if b - 128 ≤ rest.length then
          some (bytesToNat (rest.take (b - 128)), rest.drop (b - 128))
        else none

/-- Take exactly `k` bytes. -/
def readExact (k : Nat) (l : List Nat) : Option (List Nat × List Nat) :=
  if k ≤ l.length then some (l.take k, l.drop k) else none

/-- Parse one DER value with the given tag, returning its contents and the
rest of the input. -/
def readTagged (tag : Nat) : List Nat → Option (List Nat × List Nat)
  | [] => none
  | b :: rest =>
      if b = tag then (readLen rest).bind fun p => readExact p.1 p.2
      else none

theorem readExact_append (l t : List Nat) : readExact l.length (l ++ t) = some (l, t) := by
  simp [readExact]

theorem readLen_encodeLen (n : Nat) (t : List Nat) :
    readLen (encodeLen n ++ t) = some (n, t) := by
  unfold encodeLen
  by_cases h : n < 128
  · simp [h, readLen]
  · have hne : natToBEBytes n ≠ [] := natToBEBytes_ne_nil (by omega)
    have hlenpos : 0 < (natToBEBytes n).length := List.length_pos.mpr hne
    simp only [h, if_false, List.cons_append, readLen]
    have h128 : ¬ (128 + (natToBEBytes n).length < 128) := by omega
    have hsub : 128 + (natToBEBytes n).length - 128 = (natToBEBytes n).length := by omega
    simp only [h128, if_false, hsub]
    have hz : ¬ ((natToBEBytes n).length = 0) := by omega
    have hle : (natToBEBytes n).length ≤ (natToBEBytes n ++ t).length := by
      simp [List.length_append]
    simp only [hz, if_false, hle, if_true]
    rw [List.take_left, List.drop_left, bytesToNat_natToBEBytes]

theorem readTagged_taggedEnc (tag : Nat) (c t : List Nat) :
    readTagged tag (taggedEnc tag c ++ t) = some (c, t) := by
  show readTagged tag (tag :: (encodeLen c.length ++ c) ++ t) = some (c, t)
  simp only [List.cons_append, List.append_assoc, readTagged, if_pos rfl]
  rw [readLen_encodeLen]
  exact readExact_append c t

theorem readTagged_taggedEnc_nil (tag : Nat) (c : List Nat) :
    readTagged tag (taggedEnc tag c) = some (c, []) := by
  have := readTagged_taggedEnc tag c []
  simpa using this

theorem readTagged_cons_ne {tag b : Nat} (h : b ≠ tag) (l : List Nat) :
    readTagged tag (b :: l) = none := by
  simp [readTagged, h]

/-- Parse a DER INTEGER. -/
def readInt (l : List Nat) : Option (Nat × List Nat) :=
  (readTagged 2 l).map fun p => (bytesToNat p.1, p.2)

theorem readInt_encodeInt (n : Nat) (t : List Nat) :
    readInt (encodeInt n ++ t) = some (n, t) := by
  simp [readInt, encodeInt, readTagged_taggedEnc, bytesToNat_encAux]

theorem readInt_encodeInt_nil (n : Nat) : readInt (encodeInt n) = some (n, []) := by
  have := readInt_encodeInt n []
  simpa using this

/-! ## The DSA key data model (translated from ossl_pkey_dsa.c) -/

/-- The DSA key entity: domain parameters `p`, `q`, `g` and key material
`pub_key` (y), `priv_key` (x), each possibly absent, exactly as the
`DSA` object of the source holds possibly-NULL BIGNUMs. -/
structure DSA where
  p : Option Nat
  q : Option Nat
  g : Option Nat
  pub_key : Option Nat
  priv_key : Option Nat
deriving DecidableEq, Repr

/-- The Ruby-level key object: the `DSA` it wraps plus the external
`OSSL_PKEY_IS_PRIVATE` assertion flag carried by the object (`self`). -/
structure DSAObj where
  dsa : DSA
  assertPrivate : Bool
deriving DecidableEq, Repr

/-- `DSA_HAS_PRIVATE(dsa)`: the private component is present
(source lines 26-32). -/
def DSA_HAS_PRIVATE (d : DSA) : Bool := d.priv_key.isSome

/-- `OSSL_PKEY_IS_PRIVATE(obj)`: the external private-key assertion flag
of the object. -/
def OSSL_PKEY_IS_PRIVATE (obj : DSAObj) : Bool := obj.assertPrivate

/-- `DSA_PRIVATE(obj, dsa)`: x present or the object asserts private
status (source lines 34-38). -/
def DSA_PRIVATE (obj : DSAObj) : Bool :=
  DSA_HAS_PRIVATE obj.dsa || OSSL_PKEY_IS_PRIVATE obj

/-- `ossl_dsa_is_public`: y is present (source lines 160-170). -/
def ossl_dsa_is_public (obj : DSAObj) : Bool := obj.dsa.pub_key.isSome

/-- `ossl_dsa_is_private`: `DSA_PRIVATE(self, dsa)`
(source lines 179-187). -/
def ossl_dsa_is_private (obj : DSAObj) : Bool := DSA_PRIVATE obj

/-- `DSA_new()`: a key with no components set. -/
def DSA_new : DSA := ⟨none, none, none, none, none⟩

/-- Modelled from the spec: `setParameters(p, q, g)` replaces the whole
parameter triple atomically (the `OSSL_PKEY_BN_DEF3`-generated
`ossl_dsa_set_pqg`). -/
def ossl_dsa_set_pqg (d : DSA) (pv qv gv : Nat) : DSA :=
  { d with p := some pv, q := some qv, g := some gv }

/-- Modelled from the spec: `setKeyMaterial(y, xOrAbsent)` sets the public
component (required) and the optional private component (the
`OSSL_PKEY_BN_DEF2`-generated `ossl_dsa_set_key`). -/
def ossl_dsa_set_key (d : DSA) (pub : Nat) (priv : Option Nat) : DSA :=
  { d with pub_key := some pub, priv_key := priv }

/-- The error taxonomy of the spec.  The source raises `eDSAError` at
distinct sites with distinct messages; each site is mapped to the spec's
corresponding error kind ("incomplete DSA" to `IncompleteKey`,
"Private DSA key needed!" to `NotPrivate`, "incorrect pkey type" to
`WrongKeyType`, "Neither PUB key nor PRIV key" to `NoKeyFound`, and the
message-less raises after a failed `DSA_sign` / `DSA_verify` to
`SignError` / `VerifyError`). -/
inductive DSAError where
  | IncompleteKey
  | NotPrivate
  | WrongKeyType
  | NoKeyFound
  | SignError
  | VerifyError
deriving DecidableEq, Repr

/-! ## DER structures for DSA (Modelled from the spec, section 6) -/

/-- Modelled from the spec: legacy DSA private key structure,
`SEQUENCE(version = 0, p, q, g, y, x)`. -/
def encodeDSAPrivateKey (pv qv gv y x : Nat) : List Nat :=
  taggedEnc 48 (encodeInt 0 ++ (encodeInt pv ++ (encodeInt qv ++
    (encodeInt gv ++ (encodeInt y ++ encodeInt x)))))

/-- Modelled from the spec: legacy algorithm-specific DSA public key
structure, `SEQUENCE(p, q, g, y)` (distinct from SubjectPublicKeyInfo). -/
def encodeDSAPublicKeyLegacy (pv qv gv y : Nat) : List Nat :=
  taggedEnc 48 (encodeInt pv ++ (encodeInt qv ++ (encodeInt gv ++ encodeInt y)))

/-- The DER-encoded object identifier contents for the DSA algorithm
(1.2.840.10040.4.1). -/
def dsaOidBody : List Nat := [42, 134, 72, 206, 56, 4, 1]

/-- Modelled from the spec: SubjectPublicKeyInfo wrapping an
`AlgorithmIdentifier(DSA, parameters = SEQUENCE(p, q, g))` and a
BIT STRING (zero unused bits) holding the INTEGER-encoded public key. -/
def encodeSPKI (pv qv gv y : Nat) : List Nat :=
  taggedEnc 48 (
    taggedEnc 48 (taggedEnc 6 dsaOidBody ++
      taggedEnc 48 (encodeInt pv ++ (encodeInt qv ++ encodeInt gv))) ++
    taggedEnc 3 (0 :: encodeInt y))

/-- Modelled from the spec: the DSA signature structure,
`SEQUENCE(r INTEGER, s INTEGER)`. -/
def encodeSigDER (r s : Nat) : List Nat :=
  taggedEnc 48 (encodeInt r ++ encodeInt s)

/-- Modelled from the spec: strict DER parse of the signature structure;
trailing garbage and malformed encodings are rejected. -/
def decodeSig (bytes : List Nat) : Option (Nat × Nat) :=
  match readTagged 48 bytes with
  | some (c, []) =>
      match readInt c with
      | some (r, c2) =>
          match readInt c2 with
          | some (s, []) => some (r, s)
          | _ => none
      | none => none
  | _ => none

/-- Modelled from the spec: strict DER parse of the legacy DSA private
key structure. -/
def decodeDSAPrivateKeyDer (bytes : List Nat) : Option DSA :=
  match readTagged 48 bytes with
  | some (c, []) =>
      match readInt c with
      | some (_v, c1) =>
          match readInt c1 with
          | some (pv, c2) =>
              match readInt c2 with
              | some (qv, c3) =>
                  match readInt c3 with
                  | some (gv, c4) =>
                      match readInt c4 with
                      | some (y, c5) =>
                          match readInt c5 with
                          | some (x, []) =>
                              some ⟨some pv, some qv, some gv, some y, some x⟩
                          | _ => none
                      | none => none
                  | none => none
              | none => none
          | none => none
      | none => none
  | _ => none

/-- Modelled from the spec: strict DER parse of the legacy DSA public key
structure. -/
def decodeDSAPublicKeyLegacyDer (bytes : List Nat) : Option DSA :=
  match readTagged 48 bytes with
  | some (c, []) =>
      match readInt c with
      | some (pv, c1) =>
          match readInt c1 with
          | some (qv, c2) =>
              match readInt c2 with
              | some (gv, c3) =>
                  match readInt c3 with
                  | some (y, []) =>
                      some ⟨some pv, some qv, some gv, some y, none⟩
                  | _ => none
              | none => none
          | none => none
      | none => none
  | _ => none

/-- A parsed generic key: either a DSA key or a key of another algorithm
family, identified by its OID contents. -/
inductive PKey where
  | dsa (d : DSA)
  | other (oid : List Nat)
deriving DecidableEq, Repr

/-- Modelled from the spec: parse of a SubjectPublicKeyInfo.  A non-DSA
algorithm identifier yields a key of that other family (its parameters
are not interpreted); a DSA identifier requires the parameter SEQUENCE
`(p, q, g)` and the BIT STRING-wrapped INTEGER public key. -/
def decodeSPKI (bytes : List Nat) : Option PKey :=
  match readTagged 48 bytes with
  | some (c, []) =>
      match readTagged 48 c with
      | some (algid, r1) =>
          match readTagged 6 algid with
          | some (oid, params) =>
              match readTagged 3 r1 with
              | some (bits, []) =>
                  if oid = dsaOidBody then
                    match readTagged 48 params with
                    | some (pc, []) =>
                        match readInt pc with
                        | some (pv, c1) =>
                            match readInt c1 with
                            | some (qv, c2) =>
                                match readInt c2 with
                                | some (gv, []) =>
                                    match bits with
                                    | 0 :: yder =>
                                        match readInt yder with
                                        | some (y, []) =>
                                            some (.dsa ⟨some pv, some qv, some gv, some y, none⟩)
                                        | _ => none
                                    | _ => none
                                | _ => none
                            | none => none
                        | none => none
                    | _ => none
                  else some (.other oid)
              | _ => none
          | _ => none
      | _ => none
  | _ => none

/-! ## Round-trip and discrimination lemmas for the DER structures -/

theorem readTagged_encodeInt_append {tag : Nat} (h : ¬ (2 = tag)) (n : Nat) (t : List Nat) :
    readTagged tag (encodeInt n ++ t) = none := by
  show readTagged tag ((2 :: (encodeLen (encAux n).length ++ encAux n)) ++ t) = none
  rw [List.cons_append]
  exact readTagged_cons_ne h _

theorem readInt_taggedEnc48_append (c t : List Nat) :
    readInt (taggedEnc 48 c ++ t) = none := by
  unfold readInt
  show (readTagged 2 ((48 :: (encodeLen c.length ++ c)) ++ t)).map _ = none
  rw [List.cons_append, readTagged_cons_ne (by decide)]
  rfl

theorem decodeSig_encodeSigDER (r s : Nat) :
    decodeSig (encodeSigDER r s) = some (r, s) := by
  simp only [decodeSig, encodeSigDER, readTagged_taggedEnc_nil,
    readInt_encodeInt, readInt_encodeInt_nil]

theorem decodeDSAPrivateKeyDer_encode (pv qv gv y x : Nat) :
    decodeDSAPrivateKeyDer (encodeDSAPrivateKey pv qv gv y x)
      = some ⟨some pv, some qv, some gv, some y, some x⟩ := by
  simp only [decodeDSAPrivateKeyDer, encodeDSAPrivateKey, readTagged_taggedEnc_nil,
    readInt_encodeInt, readInt_encodeInt_nil]

theorem decodeDSAPublicKeyLegacyDer_encode (pv qv gv y : Nat) :
    decodeDSAPublicKeyLegacyDer (encodeDSAPublicKeyLegacy pv qv gv y)
      = some ⟨some pv, some qv, some gv, some y, none⟩ := by
  simp only [decodeDSAPublicKeyLegacyDer, encodeDSAPublicKeyLegacy,
    readTagged_taggedEnc_nil, readInt_encodeInt, readInt_encodeInt_nil]

theorem decodeSPKI_encodeSPKI (pv qv gv y : Nat) :
    decodeSPKI (encodeSPKI pv qv gv y)
      = some (.dsa ⟨some pv, some qv, some gv, some y, none⟩) := by
  simp only [decodeSPKI, encodeSPKI, readTagged_taggedEnc_nil, readTagged_taggedEnc,
    readInt_encodeInt, readInt_encodeInt_nil, if_pos]

theorem readTagged48_encodeInt_append (n : Nat) (t : List Nat) :
    readTagged 48 (encodeInt n ++ t) = none :=
  readTagged_encodeInt_append (by decide) n t

theorem decodeSPKI_encodePriv (pv qv gv y x : Nat) :
    decodeSPKI (encodeDSAPrivateKey pv qv gv y x) = none := by
  simp only [decodeSPKI, encodeDSAPrivateKey, readTagged_taggedEnc_nil,
    readTagged48_encodeInt_append]

theorem decodeDSAPrivateKeyDer_encodeSPKI (pv qv gv y : Nat) :
    decodeDSAPrivateKeyDer (encodeSPKI pv qv gv y) = none := by
  simp only [decodeDSAPrivateKeyDer, encodeSPKI, readTagged_taggedEnc_nil,
    readInt_taggedEnc48_append]

/-! ## Base64 (Modelled from the spec: the PEM body encoding) -/

/-- The base64 alphabet: sextet value to ASCII code. -/
def b64char (n : Nat) : Nat :=
  if n < 26 then 65 + n
  else if n < 52 then 71 + n
  else if n < 62 then n - 4
  else if n = 62 then 43
  else 47

/-- ASCII code back to sextet value; `none` for characters outside the
alphabet (including the pad character). -/
def b64val (c : Nat) : Option Nat :=
  if 65 ≤ c ∧ c ≤ 90 then some (c - 65)
  else if 97 ≤ c ∧ c ≤ 122 then some (c - 71)
  else if 48 ≤ c ∧ c ≤ 57 then some (c + 4)
  else if c = 43 then some 62
  else if c = 47 then some 63
  else none

theorem b64val_b64char : ∀ n < 64, b64val (b64char n) = some n := by decide

theorem b64char_ne_pad : ∀ n < 64, b64char n ≠ 61 := by decide

/-- Modelled from the spec: base64 encoding of a byte string (ASCII codes
out, `=` padding, no line breaks). -/
def b64encode : List Nat → List Nat
  | b1 :: b2 :: b3 :: rest =>
      b64char (b1 / 4) :: b64char (b1 % 4 * 16 + b2 / 16) ::
      b64char (b2 % 16 * 4 + b3 / 64) :: b64char (b3 % 64) :: b64encode rest
  | [b1, b2] =>
      [b64char (b1 / 4), b64char (b1 % 4 * 16 + b2 / 16), b64char (b2 % 16 * 4), 61]
  | [b1] =>
      [b64char (b1 / 4), b64char (b1 % 4 * 16), 61, 61]
  | [] => []

/-- Modelled from the spec: base64 decoding; rejects anything that is not
a well-formed encoding. -/
def b64decode : List Nat → Option (List Nat)
  | c1 :: c2 :: c3 :: c4 :: rest =>
      (b64val c1).bind fun s1 =>
      (b64val c2).bind fun s2 =>
      if c3 = 61 then
        if c4 = 61 ∧ rest = [] then
          if s2 % 16 = 0 then some [s1 * 4 + s2 / 16] else none
        else none
      else
        (b64val c3).bind fun s3 =>
        if c4 = 61 then
          if rest = [] then
            if s3 % 4 = 0 then some [s1 * 4 + s2 / 16, s2 % 16 * 16 + s3 / 4]
            else none
          else none
        else
          (b64val c4).bind fun s4 =>
          (b64decode rest).map fun bs =>
            (s1 * 4 + s2 / 16) :: (s2 % 16 * 16 + s3 / 4) :: (s3 % 4 * 64 + s4) :: bs
  | [] => some []
  | _ => none

theorem b64decode_b64encode : ∀ l : List Nat, (∀ b ∈ l, b < 256) →
    b64decode (b64encode l) = some l
  | [], _ => rfl
  | [b1], h => by
      have hb1 : b1 < 256 := h b1 (by simp)
      have h1 : b1 / 4 < 64 := by omega
      have h2 : b1 % 4 * 16 < 64 := by omega
      have hz : b1 % 4 * 16 % 16 = 0 := by omega
      have e0 : b1 / 4 * 4 + b1 % 4 * 16 / 16 = b1 := by omega
      simp only [b64encode, b64decode, b64val_b64char _ h1, b64val_b64char _ h2,
        Option.some_bind]
      simp [hz] <;> omega
  | [b1, b2], h => by
      have hb1 : b1 < 256 := h b1 (by simp)
      have hb2 : b2 < 256 := h b2 (by simp)
      have h1 : b1 / 4 < 64 := by omega
      have h2 : b1 % 4 * 16 + b2 / 16 < 64 := by omega
      have h3 : b2 % 16 * 4 < 64 := by omega
      have hne : b64char (b2 % 16 * 4) ≠ 61 := b64char_ne_pad _ h3
      have h4 : b2 % 16 * 4 % 4 = 0 := by omega
      have e1 : b1 / 4 * 4 + (b1 % 4 * 16 + b2 / 16) / 16 = b1 := by omega
      have e2 : (b1 % 4 * 16 + b2 / 16) % 16 * 16 + b2 % 16 * 4 / 4 = b2 := by omega
      simp only [b64encode, b64decode, b64val_b64char _ h1, b64val_b64char _ h2,
        b64val_b64char _ h3, Option.some_bind, if_neg hne]
      simp [h4] <;> omega
  | b1 :: b2 :: b3 :: b4 :: rest, h => by
      have hb1 : b1 < 256 := h b1 (by simp)
      have hb2 : b2 < 256 := h b2 (by simp)
      have hb3 : b3 < 256 := h b3 (by simp)
      have h1 : b1 / 4 < 64 := by omega
      have h2 : b1 % 4 * 16 + b2 / 16 < 64 := by omega
      have h3 : b2 % 16 * 4 + b3 / 64 < 64 := by omega
      have h4 : b3 % 64 < 64 := by omega
      have hne3 : b64char (b2 % 16 * 4 + b3 / 64) ≠ 61 := b64char_ne_pad _ h3
      have hne4 : b64char (b3 % 64) ≠ 61 := b64char_ne_pad _ h4
      have ih := b64decode_b64encode (b4 :: rest) (fun b hb => h b (by simp [hb]))
      simp only [b64encode, b64decode, b64val_b64char _ h1, b64val_b64char _ h2,
        b64val_b64char _ h3, b64val_b64char _ h4, Option.some_bind,
        if_neg hne3, if_neg hne4, ih, Option.map_some']
      have e1 : b1 / 4 * 4 + (b1 % 4 * 16 + b2 / 16) / 16 = b1 := by omega
      have e2 : (b1 % 4 * 16 + b2 / 16) % 16 * 16 + (b2 % 16 * 4 + b3 / 64) / 4 = b2 := by
        omega
      have e3 : (b2 % 16 * 4 + b3 / 64) % 4 * 64 + b3 % 64 = b3 := by omega
      rw [e1, e2, e3]
  | [b1, b2, b3], h => by
      have hb1 : b1 < 256 := h b1 (by simp)
      have hb2 : b2 < 256 := h b2 (by simp)
      have hb3 : b3 < 256 := h b3 (by simp)
      have h1 : b1 / 4 < 64 := by omega
      have h2 : b1 % 4 * 16 + b2 / 16 < 64 := by omega
      have h3 : b2 % 16 * 4 + b3 / 64 < 64 := by omega
      have h4 : b3 % 64 < 64 := by omega
      have hne3 : b64char (b2 % 16 * 4 + b3 / 64) ≠ 61 := b64char_ne_pad _ h3
      have hne4 : b64char (b3 % 64) ≠ 61 := b64char_ne_pad _ h4
      simp only [b64encode, b64decode, b64val_b64char _ h1, b64val_b64char _ h2,
        b64val_b64char _ h3, b64val_b64char _ h4, Option.some_bind,
        if_neg hne3, if_neg hne4, Option.map_some']
      have e1 : b1 / 4 * 4 + (b1 % 4 * 16 + b2 / 16) / 16 = b1 := by omega
      have e2 : (b1 % 4 * 16 + b2 / 16) % 16 * 16 + (b2 % 16 * 4 + b3 / 64) / 4 = b2 := by
        omega
      have e3 : (b2 % 16 * 4 + b3 / 64) % 4 * 64 + b3 % 64 = b3 := by omega
      rw [e1, e2, e3]

/-! ## PEM encapsulation (Modelled from the spec, section 6) -/

/-- Match `pre` at the head of `l` byte by byte, returning the remainder. -/
def dropExact : List Nat → List Nat → Option (List Nat)
  | [], l => some l
  | _ :: _, [] => none
  | a :: as, b :: bs => if a = b then dropExact as bs else none

theorem dropExact_append (a : List Nat) : ∀ t, dropExact a (a ++ t) = some t := by
  induction a with
  | nil => intro t; rfl
  | cons x xs ih => intro t; simp [dropExact, ih]

theorem dropExact_append_left (a : List Nat) :
    ∀ b c, dropExact (a ++ b) (a ++ c) = dropExact b c := by
  induction a with
  | nil => intro b c; rfl
  | cons x xs ih => intro b c; simp [dropExact, ih]

/-- ASCII bytes of "PUBLIC KEY" (the SubjectPublicKeyInfo PEM label). -/
def lblPublicKey : List Nat := [80, 85, 66, 76, 73, 67, 32, 75, 69, 89]

/-- ASCII bytes of "DSA PRIVATE KEY" (the legacy private-key PEM label). -/
def lblDsaPrivate : List Nat := [68, 83, 65, 32, 80, 82, 73, 86, 65, 84, 69, 32, 75, 69, 89]

/-- ASCII bytes of "DSA PUBLIC KEY" (`PEM_STRING_DSA_PUBLIC`, the label
used by the loader's legacy public-key fallback). -/
def lblDsaPublic : List Nat := [68, 83, 65, 32, 80, 85, 66, 76, 73, 67, 32, 75, 69, 89]

/-- ASCII bytes of `-----BEGIN `. -/
def pemBeginMark : List Nat := [45, 45, 45, 45, 45, 66, 69, 71, 73, 78, 32]

/-- ASCII bytes of `-----` followed by a newline. -/
def pemDashesNL : List Nat := [45, 45, 45, 45, 45, 10]

/-- ASCII bytes of a newline followed by `-----END `. -/
def pemEndMark : List Nat := [10, 45, 45, 45, 45, 45, 69, 78, 68, 32]

/-- The opening line `-----BEGIN <label>-----\n` of a PEM block. -/
def pemBegin (label : List Nat) : List Nat := pemBeginMark ++ (label ++ pemDashesNL)

/-- The closing line `\n-----END <label>-----\n` of a PEM block. -/
def pemEnd (label : List Nat) : List Nat := pemEndMark ++ (label ++ pemDashesNL)

/-- Modelled from the spec: PEM encapsulation, base64 of the DER bytes
between BEGIN/END header lines carrying the structure's label. -/
def pemWrap (label der : List Nat) : List Nat :=
  pemBegin label ++ (b64encode der ++ pemEnd label)

/-- ASCII bytes of `Proc-Type: 4,ENCRYPTED\nDEK-Info: `. -/
def pemDekInfoMark : List Nat :=
  [80, 114, 111, 99, 45, 84, 121, 112, 101, 58, 32, 52, 44, 69, 78, 67, 82,
   89, 80, 84, 69, 68, 10, 68, 69, 75, 45, 73, 110, 102, 111, 58, 32]

/-- Modelled from the spec: passphrase-encrypted private-key PEM: the
BEGIN line, a `DEK-Info` header naming the symmetric cipher, and the
base64 of the ciphertext. -/
def pemWrapEnc (label cipherName ciphertext : List Nat) : List Nat :=
  pemBegin label ++ (pemDekInfoMark ++ (cipherName ++ ([10, 10] ++
    (b64encode ciphertext ++ pemEnd label))))

/-- Modelled from the spec: recognize one (unencrypted) PEM block with the
given label and recover its DER contents. -/
def pemUnwrapAs (label bytes : List Nat) : Option (List Nat) :=
  match dropExact (pemBegin label) bytes with
  | none => none
  | some rest =>
      if (pemEnd label).length ≤ rest.length then
        if rest.drop (rest.length - (pemEnd label).length) = pemEnd label then
          b64decode (rest.take (rest.length - (pemEnd label).length))
        else none
      else none

theorem pemUnwrapAs_pemWrap (label der : List Nat) (h : ∀ b ∈ der, b < 256) :
    pemUnwrapAs label (pemWrap label der) = some der := by
  have hlen : (b64encode der ++ pemEnd label).length - (pemEnd label).length
      = (b64encode der).length := by
    simp [List.length_append]
  have hle : (pemEnd label).length ≤ (b64encode der ++ pemEnd label).length := by
    simp [List.length_append]
  simp only [pemUnwrapAs, pemWrap, dropExact_append, hlen, hle, if_true,
    List.drop_left, List.take_left, eq_self_iff_true]
  exact b64decode_b64encode der h

theorem pemWrap_head (l d : List Nat) : ∃ t, pemWrap l d = 45 :: t :=
  ⟨_, rfl⟩

theorem decodeSPKI_pemWrap (l d : List Nat) : decodeSPKI (pemWrap l d) = none := by
  obtain ⟨t, ht⟩ := pemWrap_head l d
  rw [ht]
  simp only [decodeSPKI, readTagged_cons_ne (show (45 : Nat) ≠ 48 by decide)]

theorem decodeDSAPrivateKeyDer_pemWrap (l d : List Nat) :
    decodeDSAPrivateKeyDer (pemWrap l d) = none := by
  obtain ⟨t, ht⟩ := pemWrap_head l d
  rw [ht]
  simp only [decodeDSAPrivateKeyDer, readTagged_cons_ne (show (45 : Nat) ≠ 48 by decide)]

theorem pemUnwrapAs_pub_of_priv (d : List Nat) :
    pemUnwrapAs lblPublicKey (pemWrap lblDsaPrivate d) = none := by
  have h : dropExact (pemBegin lblPublicKey) (pemWrap lblDsaPrivate d) = none := by
    show dropExact (pemBeginMark ++ (lblPublicKey ++ pemDashesNL))
        ((pemBeginMark ++ (lblDsaPrivate ++ pemDashesNL)) ++
          (b64encode d ++ pemEnd lblDsaPrivate)) = none
    rw [List.append_assoc, dropExact_append_left]
    simp [lblPublicKey, lblDsaPrivate, pemDashesNL, dropExact]
  simp only [pemUnwrapAs, h]

/-! ## DSA signature arithmetic (Modelled from the spec, section 4.4)

The source delegates to libcrypto's `DSA_sign` / `DSA_verify`; the spec
describes them as the standard DSA signature algorithm over a pre-hashed
digest (modular exponentiation, field arithmetic over the subgroup order
q, DER `SEQUENCE(r, s)` signature encoding).  The nonce k, drawn from the
external secure random source, is passed explicitly. -/

/-- Modelled from the spec: modular inverse from the external BigInt
interface; computed by Fermat's little theorem, valid when the modulus is
prime (the subgroup order q is prime). -/
def modInv (a n : Nat) : Nat := a ^ (n - 2) % n

/-- The signature value r = (g^k mod p) mod q. -/
def dsaSignR (p q g k : Nat) : Nat := g ^ k % p % q

/-- The signature value s = k⁻¹ (H + x·r) mod q. -/
def dsaSignS (q x k H r : Nat) : Nat := modInv k q * (H + x * r) % q

/-- Modelled from the spec: raw DSA signing of a digest value; the
degenerate cases r = 0 or s = 0 are arithmetic failures. -/
def dsaSignRS (p q g x k H : Nat) : Option (Nat × Nat) :=
  if dsaSignR p q g k = 0 ∨ dsaSignS q x k H (dsaSignR p q g k) = 0 then none
  else some (dsaSignR p q g k, dsaSignS q x k H (dsaSignR p q g k))

/-- Verification exponent u1 = H·w mod q with w = s⁻¹ mod q. -/
def dsaU1 (q s H : Nat) : Nat := H * modInv s q % q

/-- Verification exponent u2 = r·w mod q with w = s⁻¹ mod q. -/
def dsaU2 (q s r : Nat) : Nat := r * modInv s q % q

/-- Modelled from the spec: raw DSA verification of (r, s) against a
digest value: range checks 0 < r < q and 0 < s < q (out-of-range values
are a definite failure, not an error), then the congruence
(g^u1 · y^u2 mod p) mod q = r. -/
def dsaVerifyRS (p q g y H r s : Nat) : Bool :=
  if 0 < r ∧ r < q ∧ 0 < s ∧ s < q then
    decide (g ^ dsaU1 q s H * y ^ dsaU2 q s r % p % q = r)
  else false

/-- Modelled from the spec: `DSA_sign` — sign the digest bytes with the
key's parameters and private component, producing the DER-encoded
signature structure; `none` on any failure (missing components or
degenerate arithmetic). -/
def DSA_sign (digest : List Nat) (d : DSA) (k : Nat) : Option (List Nat) :=
  match d.p, d.q, d.g, d.priv_key with
  | some pv, some qv, some gv, some x =>
      (dsaSignRS pv qv gv x k (bytesToNat digest)).map fun rs => encodeSigDER rs.1 rs.2
  | _, _, _, _ => none

/-- Modelled from the spec: `DSA_verify` — returns 1 for a valid
signature, 0 for a definite failure, -1 for an error (malformed signature
encoding or unusable key components). -/
def DSA_verify (digest sig : List Nat) (d : DSA) : Int :=
  match d.p, d.q, d.g, d.pub_key with
  | some pv, some qv, some gv, some y =>
      match decodeSig sig with
      | none => -1
      | some (r, s) => if dsaVerifyRS pv qv gv y (bytesToNat digest) r s then 1 else 0
  | _, _, _, _ => -1

/-- `ossl_dsa_sign` (source lines 286-310): raise `IncompleteKey` when q
is absent, `NotPrivate` when `DSA_PRIVATE` fails, then delegate to
`DSA_sign`, whose failure is a generic `SignError`. -/
def ossl_dsa_sign (obj : DSAObj) (data : List Nat) (k : Nat) :
    Except DSAError (List Nat) :=
  match obj.dsa.q with
  | none => .error .IncompleteKey
  | some _ =>
      if DSA_PRIVATE obj then
        match DSA_sign data obj.dsa k with
        | some sig => .ok sig
        | none => .error .SignError
      else .error .NotPrivate

/-- `ossl_dsa_verify` (source lines 331-351): negative return of
`DSA_verify` raises (`VerifyError`), 1 is `true`, anything else is
`false`. -/
def ossl_dsa_verify (obj : DSAObj) (digest sig : List Nat) :
    Except DSAError Bool :=
  if DSA_verify digest sig obj.dsa < 0 then .error .VerifyError
  else if DSA_verify digest sig obj.dsa = 1 then .ok true
  else .ok false

/-! ## Export (source lines 206-235 with the spec-modelled helpers) -/

/-- A symmetric cipher handed in by the caller: its name (for the
`DEK-Info` header) and its keyed encryption function. -/
structure Cipher where
  name : List Nat
  run : List Nat → List Nat → List Nat

/-- Modelled from the spec: `ossl_pkey_export_traditional` — the legacy
private-key structure, as PEM (optionally passphrase-encrypted with the
given cipher) or as raw DER; missing components are an `IncompleteKey`
error. -/
def ossl_pkey_export_traditional (d : DSA) (cipher : Option Cipher)
    (pass : Option (List Nat)) (toDer : Bool) : Except DSAError (List Nat) :=
  match d.p, d.q, d.g, d.pub_key, d.priv_key with
  | some pv, some qv, some gv, some y, some x =>
      if toDer then .ok (encodeDSAPrivateKey pv qv gv y x)
      else
        match cipher with
        | some c =>
            .ok (pemWrapEnc lblDsaPrivate c.name
              (c.run (pass.getD []) (encodeDSAPrivateKey pv qv gv y x)))
        | none => .ok (pemWrap lblDsaPrivate (encodeDSAPrivateKey pv qv gv y x))
  | _, _, _, _, _ => .error .IncompleteKey

/-- Modelled from the spec: `ossl_pkey_export_spki` — the
SubjectPublicKeyInfo structure (no encryption envelope), as PEM or raw
DER; missing components are an `IncompleteKey` error. -/
def ossl_pkey_export_spki (d : DSA) (toDer : Bool) : Except DSAError (List Nat) :=
  match d.p, d.q, d.g, d.pub_key with
  | some pv, some qv, some gv, some y =>
      .ok (if toDer then encodeSPKI pv qv gv y
           else pemWrap lblPublicKey (encodeSPKI pv qv gv y))
  | _, _, _, _ => .error .IncompleteKey

/-- `ossl_dsa_export` (source lines 206-216): PEM export, choosing the
traditional private structure iff `DSA_HAS_PRIVATE` and the
SubjectPublicKeyInfo structure otherwise. -/
def ossl_dsa_export (obj : DSAObj) (cipher : Option Cipher)
    (pass : Option (List Nat)) : Except DSAError (List Nat) :=
  if DSA_HAS_PRIVATE obj.dsa then
    ossl_pkey_export_traditional obj.dsa cipher pass false
  else ossl_pkey_export_spki obj.dsa false

/-- `ossl_dsa_to_der` (source lines 225-235): DER export with the same
structure selection (no cipher arguments exist on this path). -/
def ossl_dsa_to_der (obj : DSAObj) : Except DSAError (List Nat) :=
  if DSA_HAS_PRIVATE obj.dsa then
    ossl_pkey_export_traditional obj.dsa none none true
  else ossl_pkey_export_spki obj.dsa true

/-! ## Loading (source lines 83-131 with the spec-modelled generic reader) -/

/-- Modelled from the spec: `ossl_pkey_read_generic` — the Codec Layer's
"read any recognized PKey" routine: it recognizes the SubjectPublicKeyInfo
and legacy private-key structures, each as raw DER or PEM-encapsulated
(DER first, per the spec's auto-detection order).  A SubjectPublicKeyInfo
of another algorithm family parses to a key of that family.  The
passphrase would only be consulted for encrypted private-key PEM, which
no claim exercises; it is otherwise unused. -/
def ossl_pkey_read_generic (bytes : List Nat) (_pass : Option (List Nat)) :
    Option PKey :=
  match decodeSPKI bytes with
  | some k => some k
  | none =>
      match decodeDSAPrivateKeyDer bytes with
      | some d => some (.dsa d)
      | none =>
          match pemUnwrapAs lblPublicKey bytes with
          | some der => decodeSPKI der
          | none =>
              match pemUnwrapAs lblDsaPrivate bytes with
              | some der => (decodeDSAPrivateKeyDer der).map .dsa
              | none => none

/-- `ossl_dsa_initialize` (source lines 83-131).  `args = none` is the
no-argument form (`DSA_new`).  Otherwise: the generic read; a non-DSA
result raises `WrongKeyType` ("incorrect pkey type"); on generic failure
the input is retried as the PEM-encapsulated legacy DSA public-key
structure (`PEM_read_bio_DSAPublicKey` with `PEM_STRING_DSA_PUBLIC`); if
that also fails, `ossl_clear_error()` empties the low-level error queue
and `NoKeyFound` ("Neither PUB key nor PRIV key") is raised.  The second
component threads the low-level error queue: a failed generic attempt
leaves a residual entry, and only the final failure path clears it. -/
def ossl_dsa_init (errq : List Nat)
    (args : Option (List Nat × Option (List Nat))) :
    Except DSAError DSA × List Nat :=
  match args with
  | none => (.ok DSA_new, errq)
  | some (bytes, pass) =>
      match ossl_pkey_read_generic bytes pass with
      | some (.dsa d) => (.ok d, errq)
      | some (.other _) => (.error .WrongKeyType, errq)
      | none =>
          match (pemUnwrapAs lblDsaPublic bytes).bind decodeDSAPublicKeyLegacyDer with
          | some d => (.ok d, errq ++ [1])
          | none => (.error .NoKeyFound, [])

/-! ## Correctness of the DSA arithmetic -/

theorem pow_mod_cycle {p g q : Nat} (hg : g ^ q % p = 1 % p) (a : Nat) :
    g ^ a % p = g ^ (a % q) % p := by
  conv_lhs => rw [← Nat.div_add_mod a q]
  rw [pow_add, pow_mul]
  have h1 : (g ^ q) ^ (a / q) ≡ 1 [MOD p] := by
    simpa using Nat.ModEq.pow (a / q) hg
  have h2 : (g ^ q) ^ (a / q) * g ^ (a % q) ≡ 1 * g ^ (a % q) [MOD p] :=
    Nat.ModEq.mul_right _ h1
  simpa using h2

theorem zmod_modInv_mul {q : Nat} (hq : Nat.Prime q) (a : Nat)
    (ha : (a : ZMod q) ≠ 0) :
    (a : ZMod q) * ((modInv a q : Nat) : ZMod q) = 1 := by
  haveI : Fact (Nat.Prime q) := ⟨hq⟩
  have hcast : ((modInv a q : Nat) : ZMod q) = (a : ZMod q) ^ (q - 2) := by
    unfold modInv
    rw [ZMod.natCast_mod, Nat.cast_pow]
  rw [hcast, mul_comm, ← pow_succ]
  have h2 : q - 2 + 1 = q - 1 := by have := hq.two_le; omega
  rw [h2]
  exact ZMod.pow_card_sub_one_eq_one ha

theorem dsaVerifyRS_of_sign {p q g x k H r s : Nat} (hq : Nat.Prime q)
    (hg : g ^ q % p = 1 % p) (hk : ¬ q ∣ k)
    (hrs : dsaSignRS p q g x k H = some (r, s)) :
    dsaVerifyRS p q g (g ^ x % p) H r s = true := by
  haveI : Fact (Nat.Prime q) := ⟨hq⟩
  unfold dsaSignRS at hrs
  by_cases hc : dsaSignR p q g k = 0 ∨ dsaSignS q x k H (dsaSignR p q g k) = 0
  · simp [hc] at hrs
  · push_neg at hc
    obtain ⟨hc1, hc2⟩ := hc
    rw [if_neg (by tauto), Option.some.injEq, Prod.mk.injEq] at hrs
    obtain ⟨hr, hs⟩ := hrs
    subst hr
    subst hs
    set R := dsaSignR p q g k with hRdef
    set S := dsaSignS q x k H R with hSdef
    have hqpos : 0 < q := hq.pos
    have hRlt : R < q := Nat.mod_lt _ hqpos
    have hSlt : S < q := Nat.mod_lt _ hqpos
    -- the casts into the field ZMod q
    have hkne : (k : ZMod q) ≠ 0 := fun h0 =>
      hk ((ZMod.natCast_zmod_eq_zero_iff_dvd k q).mp h0)
    have hSne : ((S : Nat) : ZMod q) ≠ 0 := by
      intro h0
      have hdvd := (ZMod.natCast_zmod_eq_zero_iff_dvd S q).mp h0
      have := Nat.le_of_dvd (Nat.pos_of_ne_zero hc2) hdvd
      omega
    have hu1 : ((dsaU1 q S H : Nat) : ZMod q)
        = (H : ZMod q) * ((modInv S q : Nat) : ZMod q) := by
      unfold dsaU1
      rw [ZMod.natCast_mod]
      push_cast
      ring
    have hu2 : ((dsaU2 q S R : Nat) : ZMod q)
        = (R : ZMod q) * ((modInv S q : Nat) : ZMod q) := by
      unfold dsaU2
      rw [ZMod.natCast_mod]
      push_cast
      ring
    have hScast : ((S : Nat) : ZMod q)
        = ((modInv k q : Nat) : ZMod q) * ((H : ZMod q) + (x : ZMod q) * (R : ZMod q)) := by
      rw [hSdef]
      unfold dsaSignS
      rw [ZMod.natCast_mod]
      push_cast
      ring
    have hWS : ((S : Nat) : ZMod q) * ((modInv S q : Nat) : ZMod q) = 1 :=
      zmod_modInv_mul hq S hSne
    have hKI : (k : ZMod q) * ((modInv k q : Nat) : ZMod q) = 1 :=
      zmod_modInv_mul hq k hkne
    -- the exponent congruence mod q
    have hcast : ((dsaU1 q S H + x * dsaU2 q S R : Nat) : ZMod q) = (k : ZMod q) := by
      calc ((dsaU1 q S H + x * dsaU2 q S R : Nat) : ZMod q)
          = ((dsaU1 q S H : Nat) : ZMod q)
            + (x : ZMod q) * ((dsaU2 q S R : Nat) : ZMod q) := by push_cast; ring
        _ = (H : ZMod q) * ((modInv S q : Nat) : ZMod q)
            + (x : ZMod q) * ((R : ZMod q) * ((modInv S q : Nat) : ZMod q)) := by
              rw [hu1, hu2]
        _ = ((k : ZMod q) * ((modInv k q : Nat) : ZMod q)) *
            (((H : ZMod q) + (x : ZMod q) * (R : ZMod q)) *
              ((modInv S q : Nat) : ZMod q)) := by rw [hKI, one_mul]; ring
        _ = (k : ZMod q) * ((((modInv k q : Nat) : ZMod q) *
            ((H : ZMod q) + (x : ZMod q) * (R : ZMod q))) *
              ((modInv S q : Nat) : ZMod q)) := by ring
        _ = (k : ZMod q) * (((S : Nat) : ZMod q) * ((modInv S q : Nat) : ZMod q)) := by
              rw [← hScast]
        _ = (k : ZMod q) := by rw [hWS, mul_one]
    have hexp : (dsaU1 q S H + x * dsaU2 q S R) % q = k % q :=
      (ZMod.natCast_eq_natCast_iff _ _ _).mp hcast
    -- the mod-p computation
    have hyu : (g ^ x % p) ^ dsaU2 q S R % p = g ^ (x * dsaU2 q S R) % p := by
      rw [← Nat.pow_mod, ← pow_mul]
    have hmul : g ^ dsaU1 q S H * (g ^ x % p) ^ dsaU2 q S R % p
        = g ^ (dsaU1 q S H + x * dsaU2 q S R) % p := by
      calc g ^ dsaU1 q S H * (g ^ x % p) ^ dsaU2 q S R % p
          = g ^ dsaU1 q S H % p * ((g ^ x % p) ^ dsaU2 q S R % p) % p := by
            rw [Nat.mul_mod]
        _ = g ^ dsaU1 q S H % p * (g ^ (x * dsaU2 q S R) % p) % p := by rw [hyu]
        _ = g ^ dsaU1 q S H * g ^ (x * dsaU2 q S R) % p := by rw [← Nat.mul_mod]
        _ = g ^ (dsaU1 q S H + x * dsaU2 q S R) % p := by rw [← pow_add]
    have hfinal : g ^ dsaU1 q S H * (g ^ x % p) ^ dsaU2 q S R % p % q = R := by
      rw [hmul, pow_mod_cycle hg, hexp, ← pow_mod_cycle hg, hRdef]
      rfl
    unfold dsaVerifyRS
    rw [if_pos ⟨Nat.pos_of_ne_zero hc1, hRlt, Nat.pos_of_ne_zero hc2, hSlt⟩,
      decide_eq_true_eq]
    exact hfinal

theorem dsaVerifyRS_digest_congr (p q g y r s H1 H2 : Nat) (h : H1 % q = H2 % q) :
    dsaVerifyRS p q g y H1 r s = dsaVerifyRS p q g y H2 r s := by
  unfold dsaVerifyRS dsaU1
  have h2 : H1 * modInv s q % q = H2 * modInv s q % q := Nat.ModEq.mul_right _ h
  rw [h2]

/-! ## The claims -/

/-- C7: `isPublic()` is true iff the public component y is present;
`isPrivate()` is true iff the private component x is present or the
object's external private-assertion flag is set; with the flag unset,
`isPrivate()` is true exactly when x is present. -/
theorem c7_public_private_predicates (d : DSA) (flag : Bool) :
    (ossl_dsa_is_public ⟨d, flag⟩ = true ↔ d.pub_key.isSome = true) ∧
    (ossl_dsa_is_private ⟨d, flag⟩ = true ↔ (d.priv_key.isSome = true ∨ flag = true)) ∧
    (ossl_dsa_is_private ⟨d, false⟩ = true ↔ d.priv_key.isSome = true) := by
  refine ⟨Iff.rfl, ?_, ?_⟩ <;>
    simp [ossl_dsa_is_private, DSA_PRIVATE, DSA_HAS_PRIVATE, OSSL_PKEY_IS_PRIVATE]

/-- C9: the no-argument construction path bypasses all parsing and yields
the empty key `DSA_new` (no parameters, no key material), which the
setters can then populate. -/
theorem c9_no_argument_empty_key (errq : List Nat) :
    ossl_dsa_init errq none = (.ok DSA_new, errq) ∧
    DSA_new = ⟨none, none, none, none, none⟩ ∧
    (∀ (pv qv gv y : Nat) (x : Option Nat),
      ossl_dsa_set_key (ossl_dsa_set_pqg DSA_new pv qv gv) y x
        = ⟨some pv, some qv, some gv, some y, x⟩) :=
  ⟨rfl, rfl, fun _ _ _ _ _ => rfl⟩

/-- C10: both exports select their structure by `DSA_HAS_PRIVATE` alone:
the output never depends on the override flag that `isPrivate()`
consults, and a key without x exports as SubjectPublicKeyInfo even when
the flag makes `isPrivate()` answer true. -/
theorem c10_export_ignores_override_flag (d : DSA) (f1 f2 : Bool)
    (cipher : Option Cipher) (pass : Option (List Nat)) :
    (ossl_dsa_export ⟨d, f1⟩ cipher pass = ossl_dsa_export ⟨d, f2⟩ cipher pass) ∧
    (ossl_dsa_to_der ⟨d, f1⟩ = ossl_dsa_to_der ⟨d, f2⟩) ∧
    (∀ op oq og oy : Option Nat,
      ossl_dsa_is_private ⟨⟨op, oq, og, oy, none⟩, true⟩ = true ∧
      ossl_dsa_export ⟨⟨op, oq, og, oy, none⟩, true⟩ cipher pass
        = ossl_pkey_export_spki ⟨op, oq, og, oy, none⟩ false ∧
      ossl_dsa_to_der ⟨⟨op, oq, og, oy, none⟩, true⟩
        = ossl_pkey_export_spki ⟨op, oq, og, oy, none⟩ true) :=
  ⟨rfl, rfl, fun _ _ _ _ => ⟨rfl, rfl, rfl⟩⟩

/-- C8: exporting a key with no parameters (p, q, g all absent) fails with
`IncompleteKey` on both the PEM and the DER path, whatever key material or
cipher arguments are present. -/
theorem c8_export_empty_incomplete (oy ox : Option Nat) (flag : Bool)
    (cipher : Option Cipher) (pass : Option (List Nat)) :
    ossl_dsa_export ⟨⟨none, none, none, oy, ox⟩, flag⟩ cipher pass
      = .error .IncompleteKey ∧
    ossl_dsa_to_der ⟨⟨none, none, none, oy, ox⟩, flag⟩ = .error .IncompleteKey := by
  cases ox <;>
    simp [ossl_dsa_export, ossl_dsa_to_der, DSA_HAS_PRIVATE,
      ossl_pkey_export_traditional, ossl_pkey_export_spki]

/-- C3: export selects the output structure by the key's class: with x
present, both the PEM export (optionally encrypted with the given cipher
and passphrase) and the DER export emit the legacy private-key structure;
with x absent, both emit the SubjectPublicKeyInfo structure and the
cipher/passphrase arguments are ignored. -/
theorem c3_export_structure_selection (pv qv gv y x : Nat) (flag : Bool)
    (c : Cipher) (pass : Option (List Nat)) :
    (ossl_dsa_export ⟨⟨some pv, some qv, some gv, some y, some x⟩, flag⟩ (some c) pass
      = .ok (pemWrapEnc lblDsaPrivate c.name
          (c.run (pass.getD []) (encodeDSAPrivateKey pv qv gv y x)))) ∧
    (ossl_dsa_export ⟨⟨some pv, some qv, some gv, some y, some x⟩, flag⟩ none pass
      = .ok (pemWrap lblDsaPrivate (encodeDSAPrivateKey pv qv gv y x))) ∧
    (ossl_dsa_to_der ⟨⟨some pv, some qv, some gv, some y, some x⟩, flag⟩
      = .ok (encodeDSAPrivateKey pv qv gv y x)) ∧
    (∀ (c2 : Option Cipher) (pass2 : Option (List Nat)),
      ossl_dsa_export ⟨⟨some pv, some qv, some gv, some y, none⟩, flag⟩ c2 pass2
        = .ok (pemWrap lblPublicKey (encodeSPKI pv qv gv y))) ∧
    (ossl_dsa_to_der ⟨⟨some pv, some qv, some gv, some y, none⟩, flag⟩
      = .ok (encodeSPKI pv qv gv y)) :=
  ⟨rfl, rfl, rfl, fun _ _ => rfl, rfl⟩

/-- C1 (amended): `sign` fails with `IncompleteKey` exactly when q is
absent (the source checks only q, not the whole parameter triple); with q
present it fails with `NotPrivate` exactly when `DSA_PRIVATE` is false
(x absent and no override flag); with q present and `DSA_PRIVATE` true it
fails with neither of these errors (any later failure is the generic
`SignError`). -/
theorem c1_sign_precondition_amended (obj : DSAObj) (digest : List Nat) (k : Nat) :
    (obj.dsa.q = none → ossl_dsa_sign obj digest k = .error .IncompleteKey) ∧
    (∀ qv, obj.dsa.q = some qv → DSA_PRIVATE obj = false →
      ossl_dsa_sign obj digest k = .error .NotPrivate) ∧
    (∀ qv, obj.dsa.q = some qv → DSA_PRIVATE obj = true →
      ossl_dsa_sign obj digest k ≠ .error .IncompleteKey ∧
      ossl_dsa_sign obj digest k ≠ .error .NotPrivate) := by
  refine ⟨?_, ?_, ?_⟩
  · intro hq
    simp [ossl_dsa_sign, hq]
  · intro qv hq hpriv
    simp [ossl_dsa_sign, hq, hpriv]
  · intro qv hq hpriv
    cases hds : DSA_sign digest obj.dsa k <;>
      simp [ossl_dsa_sign, hq, hpriv, hds]

/-- C1 witness: a key with no components at all is refused with
`IncompleteKey`. -/
theorem c1_witness :
    ossl_dsa_sign ⟨⟨none, none, none, none, none⟩, false⟩ [1] 1
      = .error .IncompleteKey :=
  (c1_sign_precondition_amended ⟨⟨none, none, none, none, none⟩, false⟩ [1] 1).1 rfl

/-- C1 counterexample: a private key whose parameters are not all present
(p and g absent, q present) is not rejected with `IncompleteKey` as the
claim demands; the sign attempt fails with the generic `SignError`
instead. -/
theorem c1_counterexample :
    (⟨none, some 11, none, none, some 7⟩ : DSA).p = none ∧
    ossl_dsa_sign ⟨⟨none, some 11, none, none, some 7⟩, false⟩ [1] 1
      = .error .SignError ∧
    DSAError.SignError ≠ DSAError.IncompleteKey :=
  ⟨rfl, by decide, by decide⟩

/-- C2: `verify` yields a boolean only for a definite verification result:
a syntactically malformed signature encoding is the distinct error
`VerifyError` (never folded into `false`), and any boolean answer comes
with a successfully decoded signature, usable key components, and the
verification predicate's actual value. -/
theorem c2_verify_fault_distinction (obj : DSAObj) (digest sig : List Nat) :
    (decodeSig sig = none → ossl_dsa_verify obj digest sig = .error .VerifyError) ∧
    (∀ b, ossl_dsa_verify obj digest sig = .ok b →
      ∃ pv qv gv y r s, obj.dsa.p = some pv ∧ obj.dsa.q = some qv ∧
        obj.dsa.g = some gv ∧ obj.dsa.pub_key = some y ∧
        decodeSig sig = some (r, s) ∧
        b = dsaVerifyRS pv qv gv y (bytesToNat digest) r s) := by
  obtain ⟨⟨op, oq, og, oy, ox⟩, flag⟩ := obj
  constructor
  · intro hds
    cases op <;> cases oq <;> cases og <;> cases oy <;>
      simp [ossl_dsa_verify, DSA_verify, hds]
  · intro b hb
    cases op with
    | none => simp [ossl_dsa_verify, DSA_verify] at hb
    | some pv =>
      cases oq with
      | none => simp [ossl_dsa_verify, DSA_verify] at hb
      | some qv =>
        cases og with
        | none => simp [ossl_dsa_verify, DSA_verify] at hb
        | some gv =>
          cases oy with
          | none => simp [ossl_dsa_verify, DSA_verify] at hb
          | some y =>
            cases hds : decodeSig sig with
            | none => simp [ossl_dsa_verify, DSA_verify, hds] at hb
            | some rs =>
              obtain ⟨r, s⟩ := rs
              refine ⟨pv, qv, gv, y, r, s, rfl, rfl, rfl, rfl, rfl, ?_⟩
              by_cases hv : dsaVerifyRS pv qv gv y (bytesToNat digest) r s = true
              · simp [ossl_dsa_verify, DSA_verify, hds, hv] at hb
                rw [hb, hv]
              · have hv2 : dsaVerifyRS pv qv gv y (bytesToNat digest) r s = false :=
                  Bool.eq_false_iff.mpr hv
                simp [ossl_dsa_verify, DSA_verify, hds, hv2] at hb
                rw [hb, hv2]

/-- C2 witness: verifying a truncated DER signature (a bare SEQUENCE tag)
is a `VerifyError`, not `false`. -/
theorem c2_witness :
    ossl_dsa_verify ⟨⟨some 23, some 11, some 4, some 8, none⟩, false⟩ [1] [48]
      = .error .VerifyError :=
  (c2_verify_fault_distinction ⟨⟨some 23, some 11, some 4, some 8, none⟩, false⟩
    [1] [48]).1 rfl

/-- C4 (amended): `load` performs its parse attempts in order and stops at
the first success: a generic-parse result of a different algorithm family
is `WrongKeyType` without coercion; if the generic parse fails entirely,
the bytes are retried as the PEM-encapsulated legacy DSA public-key
structure (the `-----BEGIN DSA PUBLIC KEY-----` form read by
`PEM_read_bio_DSAPublicKey`), not as raw DER as the claim states; and if
all attempts fail, the result is `NoKeyFound` with the low-level error
queue cleared. -/
theorem c4_load_sequence_amended (errq bytes : List Nat) (pass : Option (List Nat)) :
    (∀ d, ossl_pkey_read_generic bytes pass = some (.dsa d) →
      (ossl_dsa_init errq (some (bytes, pass))).1 = .ok d) ∧
    (∀ oid, ossl_pkey_read_generic bytes pass = some (.other oid) →
      (ossl_dsa_init errq (some (bytes, pass))).1 = .error .WrongKeyType) ∧
    (ossl_pkey_read_generic bytes pass = none →
      ∀ d, (pemUnwrapAs lblDsaPublic bytes).bind decodeDSAPublicKeyLegacyDer = some d →
        (ossl_dsa_init errq (some (bytes, pass))).1 = .ok d) ∧
    (ossl_pkey_read_generic bytes pass = none →
      (pemUnwrapAs lblDsaPublic bytes).bind decodeDSAPublicKeyLegacyDer = none →
      ossl_dsa_init errq (some (bytes, pass)) = (.error .NoKeyFound, [])) := by
  refine ⟨?_, ?_, ?_, ?_⟩
  · intro d h
    simp [ossl_dsa_init, h]
  · intro oid h
    simp [ossl_dsa_init, h]
  · intro h d h2
    simp [ossl_dsa_init, h, h2]
  · intro h h2
    simp [ossl_dsa_init, h, h2]

/-- C4 witness: a SubjectPublicKeyInfo carrying a non-DSA algorithm
identifier loads as `WrongKeyType`. -/
theorem c4_witness :
    (ossl_dsa_init [] (some ([48, 8, 48, 3, 6, 1, 1, 3, 1, 0], none))).1
      = .error .WrongKeyType :=
  (c4_load_sequence_amended [] [48, 8, 48, 3, 6, 1, 1, 3, 1, 0] none).2.1 [1] rfl

/-- C4 counterexample: bytes that are exactly the legacy DER-encoded DSA
public-key structure (here for p = 23, q = 11, g = 4, y = 8) fail to load
with `NoKeyFound`, although the claim's retry "strictly as the legacy
DER-encoded DSA public-key-only structure" would accept them; the same
structure wrapped in a `DSA PUBLIC KEY` PEM block is what the retry
actually accepts. -/
theorem c4_counterexample :
    ossl_pkey_read_generic (encodeDSAPublicKeyLegacy 23 11 4 8) none = none ∧
    decodeDSAPublicKeyLegacyDer (encodeDSAPublicKeyLegacy 23 11 4 8)
      = some ⟨some 23, some 11, some 4, some 8, none⟩ ∧
    (ossl_dsa_init [] (some (encodeDSAPublicKeyLegacy 23 11 4 8, none))).1
      = .error .NoKeyFound ∧
    (ossl_dsa_init []
      (some (pemWrap lblDsaPublic (encodeDSAPublicKeyLegacy 23 11 4 8), none))).1
      = .ok ⟨some 23, some 11, some 4, some 8, none⟩ :=
  ⟨by decide, by decide, by decide, by decide⟩

/-- C5: export followed by load reproduces an equivalent key, on the DER
path and on the PEM path, for private keys (x recovered) and public-only
keys (x stays absent); the PEM direction needs the encoded bytes to be
genuine bytes (below 256), which every concrete key satisfies. -/
theorem c5_export_load_roundtrip (pv qv gv y : Nat) (flag : Bool) :
    (∀ x : Nat,
      ossl_dsa_to_der ⟨⟨some pv, some qv, some gv, some y, some x⟩, flag⟩
        = .ok (encodeDSAPrivateKey pv qv gv y x) ∧
      (ossl_dsa_init [] (some (encodeDSAPrivateKey pv qv gv y x, none))).1
        = .ok ⟨some pv, some qv, some gv, some y, some x⟩ ∧
      ossl_dsa_export ⟨⟨some pv, some qv, some gv, some y, some x⟩, flag⟩ none none
        = .ok (pemWrap lblDsaPrivate (encodeDSAPrivateKey pv qv gv y x)) ∧
      ((∀ b ∈ encodeDSAPrivateKey pv qv gv y x, b < 256) →
        (ossl_dsa_init []
          (some (pemWrap lblDsaPrivate (encodeDSAPrivateKey pv qv gv y x), none))).1
          = .ok ⟨some pv, some qv, some gv, some y, some x⟩)) ∧
    (ossl_dsa_to_der ⟨⟨some pv, some qv, some gv, some y, none⟩, flag⟩
        = .ok (encodeSPKI pv qv gv y) ∧
      (ossl_dsa_init [] (some (encodeSPKI pv qv gv y, none))).1
        = .ok ⟨some pv, some qv, some gv, some y, none⟩ ∧
      ossl_dsa_export ⟨⟨some pv, some qv, some gv, some y, none⟩, flag⟩ none none
        = .ok (pemWrap lblPublicKey (encodeSPKI pv qv gv y)) ∧
      ((∀ b ∈ encodeSPKI pv qv gv y, b < 256) →
        (ossl_dsa_init []
          (some (pemWrap lblPublicKey (encodeSPKI pv qv gv y), none))).1
          = .ok ⟨some pv, some qv, some gv, some y, none⟩)) := by
  constructor
  · intro x
    refine ⟨rfl, ?_, rfl, ?_⟩
    · simp [ossl_dsa_init, ossl_pkey_read_generic, decodeSPKI_encodePriv,
        decodeDSAPrivateKeyDer_encode]
    · intro hgb
      have hpem := pemUnwrapAs_pemWrap lblDsaPrivate _ hgb
      simp [ossl_dsa_init, ossl_pkey_read_generic, decodeSPKI_pemWrap,
        decodeDSAPrivateKeyDer_pemWrap, pemUnwrapAs_pub_of_priv, hpem,
        decodeDSAPrivateKeyDer_encode]
  · refine ⟨rfl, ?_, rfl, ?_⟩
    · simp [ossl_dsa_init, ossl_pkey_read_generic, decodeSPKI_encodeSPKI]
    · intro hgb
      have hpem := pemUnwrapAs_pemWrap lblPublicKey _ hgb
      simp [ossl_dsa_init, ossl_pkey_read_generic, decodeSPKI_pemWrap,
        decodeDSAPrivateKeyDer_pemWrap, hpem, decodeSPKI_encodeSPKI]

/-- C5 witness: the PEM round trip at the spec's example key
p = 23, q = 11, g = 4, y = 8 (with and without x = 7). -/
theorem c5_witness :
    (ossl_dsa_init []
      (some (pemWrap lblDsaPrivate (encodeDSAPrivateKey 23 11 4 8 7), none))).1
      = .ok ⟨some 23, some 11, some 4, some 8, some 7⟩ ∧
    (ossl_dsa_init []
      (some (pemWrap lblPublicKey (encodeSPKI 23 11 4 8), none))).1
      = .ok ⟨some 23, some 11, some 4, some 8, none⟩ :=
  ⟨((c5_export_load_roundtrip 23 11 4 8 false).1 7).2.2.2 (by decide),
   (c5_export_load_roundtrip 23 11 4 8 false).2.2.2.2 (by decide)⟩

/-- C6 (amended): over valid domain parameters (q prime, g^q = 1 mod p)
and a nonce k not divisible by q, signing a digest and verifying the
produced signature against the same digest with the corresponding public
key returns true; but verification depends on the digest only through its
value modulo q, so any digest congruent modulo q to the signed one —
including digests differing in a byte — verifies exactly the same, and a
differing digest is therefore not guaranteed to verify false. -/
theorem c6_sign_verify_amended (p q g x k : Nat) (digest : List Nat) (flag : Bool)
    (sig : List Nat) (hq : Nat.Prime q) (hg : g ^ q % p = 1 % p) (hk : ¬ q ∣ k)
    (hsig : ossl_dsa_sign ⟨⟨some p, some q, some g, some (g ^ x % p), some x⟩, flag⟩
        digest k = .ok sig) :
    ossl_dsa_verify ⟨⟨some p, some q, some g, some (g ^ x % p), none⟩, flag⟩ digest sig
      = .ok true ∧
    (∀ digest2 : List Nat, bytesToNat digest2 % q = bytesToNat digest % q →
      ossl_dsa_verify ⟨⟨some p, some q, some g, some (g ^ x % p), none⟩, flag⟩
          digest2 sig
        = ossl_dsa_verify ⟨⟨some p, some q, some g, some (g ^ x % p), none⟩, flag⟩
            digest sig) := by
  cases hrs : dsaSignRS p q g x k (bytesToNat digest) with
  | none =>
      simp [ossl_dsa_sign, DSA_PRIVATE, DSA_HAS_PRIVATE, OSSL_PKEY_IS_PRIVATE,
        DSA_sign, hrs] at hsig
  | some rs =>
      obtain ⟨r, s⟩ := rs
      have hsig2 : sig = encodeSigDER r s := by
        simp [ossl_dsa_sign, DSA_PRIVATE, DSA_HAS_PRIVATE, OSSL_PKEY_IS_PRIVATE,
          DSA_sign, hrs] at hsig
        exact hsig.symm
      subst hsig2
      have hver := dsaVerifyRS_of_sign hq hg hk hrs
      constructor
      · simp [ossl_dsa_verify, DSA_verify, decodeSig_encodeSigDER, hver]
      · intro digest2 hcong
        have hcg := dsaVerifyRS_digest_congr p q g (g ^ x % p) r s
          (bytesToNat digest2) (bytesToNat digest) hcong
        simp [ossl_dsa_verify, DSA_verify, decodeSig_encodeSigDER, hcg]

/-- C6 witness: the spec's example key, digest `[1]`, nonce 5: signing
and verifying the same digest yields true. -/
theorem c6_witness :
    ossl_dsa_verify ⟨⟨some 23, some 11, some 4, some (4 ^ 7 % 23), none⟩, false⟩ [1]
      [48, 6, 2, 1, 1, 2, 1, 6] = .ok true :=
  (c6_sign_verify_amended 23 11 4 7 5 [1] false [48, 6, 2, 1, 1, 2, 1, 6]
    (by norm_num) (by decide) (by decide) (by decide)).1

/-- C6 counterexample: with the spec's example key, the signature produced
for digest `[0]` (nonce 5) also verifies as true against the digest
`[11]`, which differs from `[0]` in its one byte — refuting "verifying
against any digest that differs in at least one byte returns false". -/
theorem c6_counterexample :
    ossl_dsa_sign ⟨⟨some 23, some 11, some 4, some (4 ^ 7 % 23), some 7⟩, false⟩ [0] 5
      = .ok [48, 6, 2, 1, 1, 2, 1, 8] ∧
    ([11] : List Nat) ≠ [0] ∧
    ossl_dsa_verify ⟨⟨some 23, some 11, some 4, some (4 ^ 7 % 23), none⟩, false⟩ [11]
      [48, 6, 2, 1, 1, 2, 1, 8] = .ok true :=
  ⟨by decide, by decide, by decide⟩
